import Mathlib

set_option linter.unusedVariables false

/-!
# LlamaPusher (`src/main.go`): a shallow embedding

The program is a linear pipeline: collect the staged git diff via a
subprocess, filter it, build a prompt, optionally gate on an estimated
cost, call a local inference endpoint, post-process the returned text
(emoji / template), and commit.

The embedding below models:
* the Go standard-library string operations the program uses
  (`strings.Split`, `strings.Fields`, `strings.TrimSpace`,
  `strings.ToLower`, `strings.ReplaceAll`, `strings.Contains`,
  `strings.HasPrefix`, `strings.Join`) as structurally recursive
  functions over `List Char`, so that every definition evaluates in the
  kernel;
* each function of `main.go` as a pure function; external effects
  (subprocess output, HTTP response, stdin lines) become explicit inputs,
  and the observable actions (diff collection, inference calls, branch
  lookups, commits) become an explicit event trace.
-/

/-! ## Go standard-library string operations, over `List Char` -/

/-- `unicode.IsSpace` restricted to the code points the program can meet
(ASCII whitespace plus the two Latin-1 spaces Go also accepts). -/
def goIsSpace (c : Char) : Bool :=
  c = ' ' || c = '\t' || c = '\n' || c = Char.ofNat 11 || c = Char.ofNat 12 ||
    c = '\r' || c = Char.ofNat 133 || c = Char.ofNat 160

/-- Split a character list at every occurrence of a separator character;
`strings.Split` with a one-character separator (the program only splits on
`"\n"` and `";"`). -/
def splitOnChar (sep : Char) : List Char → List (List Char)
  | [] => [[]]
  | c :: cs =>
    let r := splitOnChar sep cs
    if c = sep then [] :: r else (c :: r.headD []) :: r.tail

/-- Split a character list at every character satisfying a predicate. -/
def splitOnPred (p : Char → Bool) : List Char → List (List Char)
  | [] => [[]]
  | c :: cs =>
    let r := splitOnPred p cs
    if p c then [] :: r else (c :: r.headD []) :: r.tail

/-- `strings.Split` with a one-character separator. -/
def goSplit (sep : Char) (s : String) : List String :=
  (splitOnChar sep s.toList).map String.mk

/-- `strings.Fields`: the maximal runs of non-whitespace characters. -/
def goFields (s : String) : List String :=
  ((splitOnPred goIsSpace s.toList).filter (fun l => l ≠ [])).map String.mk

/-- `strings.TrimSpace` on a character list. -/
def trimSpaceList (l : List Char) : List Char :=
  ((l.dropWhile goIsSpace).reverse.dropWhile goIsSpace).reverse

/-- `strings.TrimSpace`. -/
def goTrimSpace (s : String) : String :=
  String.mk (trimSpaceList s.toList)

/-- `strings.ToLower` (the program only lowercases ASCII answers). -/
def goToLower (s : String) : String :=
  String.mk (s.toList.map Char.toLower)

/-- `strings.HasPrefix`. -/
def goStartsWith (s pre : String) : Bool :=
  List.isPrefixOf pre.toList s.toList

/-- Scan for an occurrence of a pattern; helper for `strings.Contains`. -/
def containsList (pat : List Char) : List Char → Bool
  | [] => List.isPrefixOf pat []
  | c :: cs => List.isPrefixOf pat (c :: cs) || containsList pat cs

/-- `strings.Contains`. -/
def goContains (s sub : String) : Bool :=
  containsList sub.toList s.toList

/-- Replace every occurrence of `pat` (left to right, non-overlapping),
running on explicit fuel so the recursion is structural; `goReplaceAll`
supplies fuel that the scan can never exhaust. -/
def replaceFuel (pat rep : List Char) : Nat → List Char → List Char
  | _, [] => []
  | 0, s => s
  | Nat.succ n, c :: cs =>
    if List.isPrefixOf pat (c :: cs) then
      rep ++ replaceFuel pat rep n (cs.drop (pat.length - 1))
    else
      c :: replaceFuel pat rep n cs

/-- `strings.ReplaceAll s pat rep` (for a nonempty pattern, which is the
only way the program calls it). -/
def goReplaceAll (s pat rep : String) : String :=
  String.mk (replaceFuel pat.toList rep.toList s.toList.length s.toList)

/-- `strings.Join xs sep`. -/
def goJoin (sep : String) : List String → String
  | [] => ""
  | [x] => x
  | x :: y :: xs => x ++ sep ++ goJoin sep (y :: xs)

/-! ## The diff library dependency

`getGitDiff` hands the captured subprocess output to
`diffmatchpatch.DiffMain(output, "", true)` — a structural text diff of
the output against the empty string. -/

/-- A region kind of a `diffmatchpatch` diff. -/
inductive DmpOp where
  | delete
  | insert
  | equal
deriving DecidableEq

/-- One region of a `diffmatchpatch` diff: a kind and its text. -/
structure DmpDiff where
  op : DmpOp
  text : String
deriving DecidableEq

/-- Modelled from the external dependency `sergi/go-diff/diffmatchpatch`:
`DiffMain(text1, text2, checklines)` in the special case `text2 = ""`.
When both texts are empty the library returns no regions; otherwise the
common prefix and suffix with `""` are empty and `diffCompute` hits its
`len(text2) == 0` case, returning the single region `Delete text1`.
No `Equal` or `Insert` region can occur. -/
def diffMainAgainstEmpty (text1 : String) : List DmpDiff :=
  if text1 = "" then [] else [⟨DmpOp.delete, text1⟩]

/-! ## `getGitDiff` (src/main.go:103-132), pure part

The subprocess invocation itself is an effect; the captured output is the
`output` argument. -/

/-- The body of the `for _, diff := range diffs` loop: skip `Equal`
regions, split each surviving region on newlines, and drop every line
starting with `"@@"` or `"diff --git"`. -/
def diffLinesOf (output : String) : List String :=
  (diffMainAgainstEmpty output).foldl
    (fun acc d =>
      if d.op = DmpOp.equal then acc
      else
        acc ++ (goSplit '\n' d.text).filter
          (fun line => !(goStartsWith line "@@" || goStartsWith line "diff --git")))
    []

/-- `getGitDiff` applied to the captured output of
`git diff --staged --no-color --no-prefix`. -/
def getGitDiff (output : String) : String :=
  goJoin "\n" (diffLinesOf output)

/-! ## `addGitmojiToCommitMessage` (src/main.go:358-371)

The Go code takes the first match of the regular expression
`\b[a-zA-Z]+\b` (`re.FindString`). With Go's ASCII word boundaries
(word characters are `[0-9A-Za-z_]`), that first match is exactly the
first maximal run of word characters that consists solely of ASCII
letters: a run containing a digit or an underscore offers no boundary
inside it, so no match can start or stop there. -/

/-- The character class `[a-zA-Z]`. -/
def isAsciiAlpha (c : Char) : Bool :=
  ('a' ≤ c && c ≤ 'z') || ('A' ≤ c && c ≤ 'Z')

/-- A word character for Go's `\b`: `[0-9A-Za-z_]`. -/
def isWordChar (c : Char) : Bool :=
  isAsciiAlpha c || ('0' ≤ c && c ≤ '9') || c = '_'

/-- The maximal runs of word characters of a character list, in order. -/
def wordRuns : List Char → List (List Char)
  | [] => []
  | c :: cs =>
    let rest := wordRuns cs
    if isWordChar c then
      match cs with
      | [] => [c] :: rest
      | c2 :: _ => if isWordChar c2 then (c :: rest.headD []) :: rest.tail else [c] :: rest
    else rest

/-- `regexp.MustCompile("\\b[a-zA-Z]+\\b").FindString`: the first maximal
word-character run that is made of letters only, or `""` when there is
none. -/
def firstAlphaWord (s : String) : String :=
  match (wordRuns s.toList).filter (fun r => r.all isAsciiAlpha) with
  | [] => ""
  | r :: _ => String.mk r

/-- The `typeToGitmoji` map (src/main.go:26-34). -/
def typeToGitmoji (t : String) : Option String :=
  if t = "feat" then some "✨"
  else if t = "fix" then some "🚑"
  else if t = "docs" then some "📝"
  else if t = "style" then some "💄"
  else if t = "refactor" then some "♻️"
  else if t = "test" then some "✅"
  else if t = "chore" then some "🔧"
  else none

/-- `addGitmojiToCommitMessage` (src/main.go:358-371). -/
def addGitmojiToCommitMessage (commitMessage : String) : String :=
  let m := firstAlphaWord commitMessage
  if m = "" then commitMessage
  else
    match typeToGitmoji m with
    | some gitmoji => gitmoji ++ " " ++ commitMessage
    | none => commitMessage

/-! ## Prompt builders (src/main.go:241-276) -/

/-- `getPromptForSingleCommit` (src/main.go:241-257). -/
def getPromptForSingleCommit (diff commitType language : String) : String :=
  let p1 := "From the following git diff create a short, useful git commit message in "
    ++ language ++ " language"
  let p2 := if commitType ≠ "" then p1 ++ " with commit type '" ++ commitType ++ "'. "
    else p1 ++ ". "
  p2 ++ "Do not preface the commit with anything, use the present tense, return the full sentence, "
    ++ "and use the conventional commits specification (<type in lowercase>: <subject>): "
    ++ "START OF GIT DIFF:\n" ++ diff ++ "\nEND OF GIT DIFF"

/-- `getPromptForListCommits` (src/main.go:259-276). -/
def getPromptForListCommits (diff commitType language : String) (numOptions : Nat) : String :=
  let p1 := "From the following git diff create a short, useful git commit message in "
    ++ language ++ " language"
  let p2 := if commitType ≠ "" then p1 ++ " with commit type '" ++ commitType ++ "', "
    else p1 ++ ", "
  p2 ++ "and make " ++ toString numOptions ++ " options that are separated by ';'. "
    ++ "For each option, use the present tense, return the full sentence, "
    ++ "and use the conventional commits specification (<type in lowercase>: <subject>): "
    ++ "START OF GIT DIFF:\n" ++ diff ++ "\nEND OF GIT DIFF"

/-! ## `filterAPI` (src/main.go:335-356)

The interactive answer read from stdin is the `answer` argument. The fee
is computed in `float64` in Go; `estimatedFee` is its exact
real-arithmetic counterpart over `ℚ`. -/

/-- The token estimate: `len(strings.Fields(prompt))`. -/
def numTokensOf (prompt : String) : Nat :=
  (goFields prompt).length

/-- The advisory fee `float64(numTokens)/1000*0.02 + 0.001*float64(numCompletion)`,
in exact rational arithmetic. -/
def estimatedFee (numTokens numCompletion : Nat) : ℚ :=
  (numTokens : ℚ) / 1000 * (2 / 100) + (1 / 1000) * (numCompletion : ℚ)

/-- `filterAPI` (src/main.go:335-356): `true` means proceed. -/
def filterAPI (prompt : String) (numCompletion maxTokens : Nat) (filterFee : Bool)
    (answer : String) : Bool :=
  let numTokens := numTokensOf prompt
  if numTokens > maxTokens then false
  else if filterFee then goToLower (goTrimSpace answer) == "y"
  else true

/-! ## Observable actions

Each externally visible action of a run, in order: collecting the staged
diff (`getGitDiff`'s subprocess), one inference POST, one
`git branch --show-current` lookup, one `git commit`. -/

/-- One observable external action. -/
inductive Event where
  | diffCollect
  | inference (prompt : String)
  | branchLookup
  | commit (message : String)
deriving DecidableEq

/-- How a run ends: `exited code` for `os.Exit(code)` / `log.Fatal`,
`completed` for a normal return. -/
inductive Outcome where
  | exited (code : Nat)
  | completed
deriving DecidableEq

/-! ## `processTemplate` (src/main.go:278-292) -/

/-- `processTemplate`, with the branch subprocess made explicit: the
captured output of `git branch --show-current` is `branchOutput`, and the
lookup is recorded as an event exactly when it happens. -/
def processTemplateRun (template commitMessage branchOutput : String) : String × List Event :=
  let finalCommitMessage := goReplaceAll template "{COMMIT_MESSAGE}" commitMessage
  if goContains finalCommitMessage "{GIT_BRANCH}" then
    (goReplaceAll finalCommitMessage "{GIT_BRANCH}" (goTrimSpace branchOutput),
      [Event.branchLookup])
  else
    (finalCommitMessage, [])

/-- The string `processTemplate` returns. -/
def processTemplate (template commitMessage branchOutput : String) : String :=
  (processTemplateRun template commitMessage branchOutput).1

/-! ## Whole-run models (src/main.go:51-239)

A run's external world is made explicit: the captured subprocess outputs,
the inference response(s) and the stdin lines are inputs; the observable
actions are an `Event` trace in execution order. -/

/-- The `♻️ Regenerate Commit Messages` sentinel (src/main.go:21). -/
def regenerateMsg : String := "♻️ Regenerate Commit Messages"

/-- The startup options relevant to control flow, resolved once by
`flag.Parse` (src/main.go:52-65). -/
structure Config where
  language : String
  template : String
  emoji : Bool
  commitType : String
  maxTokens : Nat
  force : Bool
  filterFee : Bool

/-- The external world of a single-mode run: the captured output of
`git diff --staged --no-color --no-prefix`, the inference response text,
the two stdin lines, and the captured `git branch --show-current`
output. -/
structure SingleEnv where
  rawDiff : String
  response : String
  feeAnswer : String
  confirmAnswer : String
  branchOutput : String

/-- The post-processing applied to one message (src/main.go:158-165 and
208-213): gitmoji first when enabled, then the template when one is
configured. -/
def postProcess (cfg : Config) (text branchOutput : String) : String × List Event :=
  let m1 := if cfg.emoji then addGitmojiToCommitMessage text else text
  if cfg.template ≠ "" then processTemplateRun cfg.template m1 branchOutput
  else (m1, [])

/-- `generateSingleCommit` (src/main.go:134-186). Its first statement
re-invokes `getGitDiff`, discarding the `diff` argument received from
`main` — `diffArg` is therefore unused, exactly as in the source. -/
def generateSingleCommitRun (cfg : Config) (env : SingleEnv) (diffArg : String) :
    Outcome × List Event :=
  let diff := getGitDiff env.rawDiff
  if diff = "" then (Outcome.exited 1, [Event.diffCollect])
  else
    let prompt := getPromptForSingleCommit diff cfg.commitType cfg.language
    if !(filterAPI prompt 1 cfg.maxTokens cfg.filterFee env.feeAnswer) then
      (Outcome.exited 1, [Event.diffCollect])
    else
      let pp := postProcess cfg env.response env.branchOutput
      let evs := Event.diffCollect :: Event.inference prompt :: pp.2
      if cfg.force then (Outcome.completed, evs ++ [Event.commit pp.1])
      else if goToLower (goTrimSpace env.confirmAnswer) = "y" then
        (Outcome.completed, evs ++ [Event.commit pp.1])
      else (Outcome.exited 1, evs)

/-- `main` (src/main.go:51-91) without `--list`: collect the diff, bail
out when it is empty, otherwise run `generateSingleCommit` on it. -/
def mainRunSingle (cfg : Config) (env : SingleEnv) : Outcome × List Event :=
  let diff := getGitDiff env.rawDiff
  if diff = "" then (Outcome.exited 1, [Event.diffCollect])
  else
    let r := generateSingleCommitRun cfg env diff
    (r.1, Event.diffCollect :: r.2)

/-- The external inputs consumed by one pass of `generateListCommits`:
one inference response, one fee-confirmation stdin line, one menu choice
read by `fmt.Scanln` (an `Int`: the Go variable is an `int`). -/
structure Round where
  response : String
  feeAnswer : String
  choice : Int

/-- A pass whose stdin is exhausted: `Scanln` leaves `choice` at its zero
value, and the fee answer reads back empty. -/
def defaultRound : Round := ⟨"", "", 0⟩

/-- The per-candidate processing of the `for i := range msgs` loop
(src/main.go:206-214): trim, then gitmoji when enabled, then the
template when one is configured. -/
def processListMsg (cfg : Config) (branchOutput seg : String) : String × List Event :=
  postProcess cfg (goTrimSpace seg) branchOutput

/-- Split the response on `";"` and post-process each piece
(src/main.go:205-214), returning the candidates and the branch-lookup
events in loop order. -/
def buildListMsgsRun (cfg : Config) (branchOutput text : String) :
    List String × List Event :=
  let parts := (goSplit ';' text).map (processListMsg cfg branchOutput)
  (parts.map Prod.fst, (parts.map Prod.snd).flatten)

/-- The menu `generateListCommits` presents (src/main.go:216-222): the
post-processed candidates with the regeneration sentinel appended as the
last entry. -/
def listMenu (cfg : Config) (branchOutput text : String) : List String :=
  (buildListMsgsRun cfg branchOutput text).1 ++ [regenerateMsg]

/-- `selectedMsg = msgs[choice-1]` (src/main.go:232) for a round's
response and choice. -/
def listSelection (cfg : Config) (branchOutput : String) (r : Round) : String :=
  (listMenu cfg branchOutput r.response).getD (r.choice - 1).toNat ""

/-- How one pass of `generateListCommits` ends: a final outcome, or the
recursive regeneration call. -/
inductive RoundResult where
  | done (o : Outcome)
  | regen
deriving DecidableEq

/-- One pass of `generateListCommits` (src/main.go:188-238) up to the
point where it either finishes or recurses: filter, inference, split and
post-process, append the sentinel, read the menu choice, and dispatch on
the selected string. -/
def listRound (cfg : Config) (diff branchOutput : String) (r : Round) :
    RoundResult × List Event :=
  let numOptions : Nat := 5
  let prompt := getPromptForListCommits diff cfg.commitType cfg.language numOptions
  if !(filterAPI prompt numOptions cfg.maxTokens cfg.filterFee r.feeAnswer) then
    (RoundResult.done (Outcome.exited 1), [])
  else
    let msgs := listMenu cfg branchOutput r.response
    let evs := Event.inference prompt :: (buildListMsgsRun cfg branchOutput r.response).2
    if r.choice < 1 || r.choice > (msgs.length : Int) then
      (RoundResult.done (Outcome.exited 1), evs)
    else
      let selectedMsg := listSelection cfg branchOutput r
      if selectedMsg = regenerateMsg then (RoundResult.regen, evs)
      else (RoundResult.done Outcome.completed, evs ++ [Event.commit selectedMsg])

/-- `generateListCommits` (src/main.go:188-238): one pass per `Round`,
recursing on the remaining rounds when the selected entry is the
regeneration sentinel. On exhausted stdin (`[]`) the pass runs with
`defaultRound`, whose choice `0` is out of range, so the `regen` branch
of that case is unreachable. -/
def generateListCommitsRun (cfg : Config) (diff branchOutput : String) :
    List Round → Outcome × List Event
  | [] =>
    match listRound cfg diff branchOutput defaultRound with
    | (RoundResult.done o, evs) => (o, evs)
    | (RoundResult.regen, evs) => (Outcome.exited 1, evs)
  | r :: rest =>
    match listRound cfg diff branchOutput r with
    | (RoundResult.done o, evs) => (o, evs)
    | (RoundResult.regen, evs) =>
      let next := generateListCommitsRun cfg diff branchOutput rest
      (next.1, evs ++ next.2)

/-- `main` (src/main.go:51-91) with `--list`: collect the diff, bail out
when it is empty, otherwise run `generateListCommits` on it. -/
def mainRunList (cfg : Config) (rawDiff branchOutput : String)
    (rounds : List Round) : Outcome × List Event :=
  let diff := getGitDiff rawDiff
  if diff = "" then (Outcome.exited 1, [Event.diffCollect])
  else
    let r := generateListCommitsRun cfg diff branchOutput rounds
    (r.1, Event.diffCollect :: r.2)

/-! ## Spec-side comparison definition and concrete fixtures -/

/-- Stated from the spec's words, for comparison with `getGitDiff`: split
the raw text on newlines, drop every line starting with `"@@"` or
`"diff --git"`, and join the rest with newlines. -/
def plainLineFilter (output : String) : String :=
  goJoin "\n"
    ((goSplit '\n' output).filter
      (fun line => !(goStartsWith line "@@" || goStartsWith line "diff --git")))

/-- A concrete configuration with emoji and template post-processing
disabled, used to instantiate the theorems below. -/
def cfgPlain : Config :=
  ⟨"english", "", false, "", 2048, false, false⟩

/-! ## Helper lemmas -/

theorem diffLinesOf_empty : diffLinesOf "" = [] := rfl

theorem diffLinesOf_ne_empty (output : String) (h : ¬ output = "") :
    diffLinesOf output =
      (goSplit '\n' output).filter
        (fun line => !(goStartsWith line "@@" || goStartsWith line "diff --git")) := by
  simp [diffLinesOf, diffMainAgainstEmpty, h]

theorem postProcess_events (cfg : Config) (t b : String) :
    ∀ e ∈ (postProcess cfg t b).2, e = Event.branchLookup := by
  intro e he
  simp only [postProcess, processTemplateRun] at he
  repeat' split at he
  all_goals simp_all

theorem buildListMsgsRun_events (cfg : Config) (b t : String) :
    ∀ e ∈ (buildListMsgsRun cfg b t).2, e = Event.branchLookup := by
  intro e he
  simp only [buildListMsgsRun, List.map_map, List.mem_flatten, List.mem_map] at he
  obtain ⟨l, ⟨seg, hseg, hl⟩, hel⟩ := he
  subst hl
  exact postProcess_events cfg (goTrimSpace seg) b e hel

theorem listRound_events_cases (cfg : Config) (diff b : String) (r : Round) :
    ∀ e ∈ (listRound cfg diff b r).2,
      e = Event.inference (getPromptForListCommits diff cfg.commitType cfg.language 5) ∨
      e = Event.branchLookup ∨ ∃ m, e = Event.commit m := by
  intro e he
  simp only [listRound] at he
  repeat' split at he
  · simp at he
  · rcases List.mem_cons.mp he with h | h
    · exact Or.inl h
    · exact Or.inr (Or.inl (buildListMsgsRun_events cfg b r.response e h))
  · rcases List.mem_cons.mp he with h | h
    · exact Or.inl h
    · exact Or.inr (Or.inl (buildListMsgsRun_events cfg b r.response e h))
  · rcases List.mem_append.mp he with h | h
    · rcases List.mem_cons.mp h with h2 | h2
      · exact Or.inl h2
      · exact Or.inr (Or.inl (buildListMsgsRun_events cfg b r.response e h2))
    · simp at h
      exact Or.inr (Or.inr ⟨_, h⟩)

theorem generateListCommitsRun_events (cfg : Config) (diff b : String) :
    ∀ rounds : List Round, ∀ e ∈ (generateListCommitsRun cfg diff b rounds).2,
      e = Event.inference (getPromptForListCommits diff cfg.commitType cfg.language 5) ∨
      e = Event.branchLookup ∨ ∃ m, e = Event.commit m := by
  intro rounds
  induction rounds with
  | nil =>
    intro e he
    simp only [generateListCommitsRun] at he
    rcases hlr : listRound cfg diff b defaultRound with ⟨res, evs⟩
    rw [hlr] at he
    cases res with
    | done o =>
      apply listRound_events_cases cfg diff b defaultRound e
      rw [hlr]
      exact he
    | regen =>
      apply listRound_events_cases cfg diff b defaultRound e
      rw [hlr]
      exact he
  | cons r rest ih =>
    intro e he
    simp only [generateListCommitsRun] at he
    rcases hlr : listRound cfg diff b r with ⟨res, evs⟩
    rw [hlr] at he
    cases res with
    | done o =>
      apply listRound_events_cases cfg diff b r e
      rw [hlr]
      exact he
    | regen =>
      simp only [List.mem_append] at he
      rcases he with h | h
      · apply listRound_events_cases cfg diff b r e
        rw [hlr]
        exact h
      · exact ih e h

theorem generateListCommitsRun_no_diffCollect (cfg : Config) (diff b : String)
    (rounds : List Round) :
    Event.diffCollect ∉ (generateListCommitsRun cfg diff b rounds).2 := by
  intro hmem
  rcases generateListCommitsRun_events cfg diff b rounds Event.diffCollect hmem with
    h | h | ⟨m, h⟩ <;> simp at h

theorem postProcess_no_diffCollect (cfg : Config) (t b : String) :
    Event.diffCollect ∉ (postProcess cfg t b).2 := by
  intro hm
  have := postProcess_events cfg t b Event.diffCollect hm
  simp at this

theorem generateSingleCommitRun_events (cfg : Config) (env : SingleEnv) (diffArg : String) :
    ∀ e ∈ (generateSingleCommitRun cfg env diffArg).2,
      e = Event.diffCollect ∨
      e = Event.inference
          (getPromptForSingleCommit (getGitDiff env.rawDiff) cfg.commitType cfg.language) ∨
      e = Event.branchLookup ∨ ∃ m, e = Event.commit m := by
  intro e he
  simp only [generateSingleCommitRun] at he
  repeat' split at he
  · simp at he
    exact Or.inl he
  · simp at he
    exact Or.inl he
  · rcases List.mem_append.mp he with h | h
    · rcases List.mem_cons.mp h with h2 | h2
      · exact Or.inl h2
      · rcases List.mem_cons.mp h2 with h3 | h3
        · exact Or.inr (Or.inl h3)
        · exact Or.inr (Or.inr (Or.inl (postProcess_events cfg env.response env.branchOutput e h3)))
    · simp at h
      exact Or.inr (Or.inr (Or.inr ⟨_, h⟩))
  · rcases List.mem_append.mp he with h | h
    · rcases List.mem_cons.mp h with h2 | h2
      · exact Or.inl h2
      · rcases List.mem_cons.mp h2 with h3 | h3
        · exact Or.inr (Or.inl h3)
        · exact Or.inr (Or.inr (Or.inl (postProcess_events cfg env.response env.branchOutput e h3)))
    · simp at h
      exact Or.inr (Or.inr (Or.inr ⟨_, h⟩))
  · rcases List.mem_cons.mp he with h2 | h2
    · exact Or.inl h2
    · rcases List.mem_cons.mp h2 with h3 | h3
      · exact Or.inr (Or.inl h3)
      · exact Or.inr (Or.inr (Or.inl (postProcess_events cfg env.response env.branchOutput e h3)))

theorem generateSingleCommitRun_count (cfg : Config) (env : SingleEnv) (diffArg : String) :
    ((generateSingleCommitRun cfg env diffArg).2.count Event.diffCollect) = 1 := by
  have hz : (postProcess cfg env.response env.branchOutput).2.count Event.diffCollect = 0 :=
    List.count_eq_zero.mpr (postProcess_no_diffCollect cfg env.response env.branchOutput)
  simp only [generateSingleCommitRun]
  repeat' split
  all_goals simp [List.count_append, List.count_cons, hz]

/-! ## Claim theorems -/

/-- C1: for every string captured from the staged-diff subprocess, the
diff collector's surviving lines contain no line starting with `"@@"` and
no line starting with `"diff --git"`, every surviving line belongs to a
non-equal (delete or insert) region of the structural text diff of the
captured output against the empty string, and the result joins the
surviving lines with newlines. -/
theorem c1_diff_collector_lines (output : String) :
    (∀ line ∈ diffLinesOf output,
        goStartsWith line "@@" = false ∧ goStartsWith line "diff --git" = false) ∧
    (∀ line ∈ diffLinesOf output,
        ∃ d ∈ diffMainAgainstEmpty output,
          d.op ≠ DmpOp.equal ∧ line ∈ goSplit '\n' d.text) ∧
    getGitDiff output = goJoin "\n" (diffLinesOf output) := by
  by_cases h : output = ""
  · subst h
    refine ⟨?_, ?_, rfl⟩ <;> intro line hline <;> simp [diffLinesOf_empty] at hline
  · refine ⟨?_, ?_, rfl⟩
    · intro line hline
      rw [diffLinesOf_ne_empty output h] at hline
      have hp := (List.mem_filter.mp hline).2
      simp only [Bool.not_eq_true', Bool.or_eq_false_iff] at hp
      exact hp
    · intro line hline
      rw [diffLinesOf_ne_empty output h] at hline
      refine ⟨⟨DmpOp.delete, output⟩, ?_, ?_, (List.mem_filter.mp hline).1⟩
      · simp [diffMainAgainstEmpty, h]
      · simp

/-- Witness for C1 at a concrete captured output: the surviving line
`"+x"` of `"diff --git a b\n@@ -1 +1 @@\n+x"` starts with neither
marker. -/
theorem c1_diff_collector_lines_witness :
    goStartsWith "+x" "@@" = false ∧ goStartsWith "+x" "diff --git" = false :=
  (c1_diff_collector_lines "diff --git a b\n@@ -1 +1 @@\n+x").1 "+x" (by decide)

/-- C8: the diff collector is extensionally a plain line filter — split
the captured output on newlines, drop the lines starting with `"@@"` or
`"diff --git"`, join the rest with newlines — because the structural diff
of a string against the empty string yields a single delete region (and
no region at all for the empty string), never an equal region. -/
theorem c8_getGitDiff_eq_plainLineFilter (output : String) :
    getGitDiff output = plainLineFilter output := by
  by_cases h : output = ""
  · subst h
    decide
  · unfold getGitDiff plainLineFilter
    rw [diffLinesOf_ne_empty output h]

/-- C5: the emoji post-processor extracts the first alphabetic word
token; when that token maps to a gitmoji (it does exactly for the seven
keywords `feat`, `fix`, `docs`, `style`, `refactor`, `test`, `chore`),
the output is the glyph, a space, then the unchanged input; otherwise the
output equals the input. In particular `"feat: add login"` maps to
`"✨ feat: add login"` and `"unknown: x"` is unchanged. -/
theorem c5_gitmoji_post_processor :
    (∀ m g : String, typeToGitmoji (firstAlphaWord m) = some g →
        addGitmojiToCommitMessage m = g ++ " " ++ m) ∧
    (∀ m : String, typeToGitmoji (firstAlphaWord m) = none →
        addGitmojiToCommitMessage m = m) ∧
    (typeToGitmoji "feat" = some "✨" ∧ typeToGitmoji "fix" = some "🚑" ∧
      typeToGitmoji "docs" = some "📝" ∧ typeToGitmoji "style" = some "💄" ∧
      typeToGitmoji "refactor" = some "♻️" ∧ typeToGitmoji "test" = some "✅" ∧
      typeToGitmoji "chore" = some "🔧") ∧
    (∀ w : String, typeToGitmoji w ≠ none →
        w = "feat" ∨ w = "fix" ∨ w = "docs" ∨ w = "style" ∨ w = "refactor" ∨
          w = "test" ∨ w = "chore") ∧
    addGitmojiToCommitMessage "feat: add login" = "✨ feat: add login" ∧
    addGitmojiToCommitMessage "unknown: x" = "unknown: x" := by
  refine ⟨?_, ?_, by decide, ?_, by decide, by decide⟩
  · intro m g hg
    have hne : ¬ firstAlphaWord m = "" := by
      intro h0
      rw [h0] at hg
      simp [typeToGitmoji] at hg
    simp [addGitmojiToCommitMessage, hne, hg]
  · intro m hnone
    by_cases h0 : firstAlphaWord m = ""
    · simp [addGitmojiToCommitMessage, h0]
    · simp [addGitmojiToCommitMessage, h0, hnone]
  · intro w hw
    unfold typeToGitmoji at hw
    split_ifs at hw with h1 h2 h3 h4 h5 h6 h7
    · exact Or.inl h1
    · exact Or.inr (Or.inl h2)
    · exact Or.inr (Or.inr (Or.inl h3))
    · exact Or.inr (Or.inr (Or.inr (Or.inl h4)))
    · exact Or.inr (Or.inr (Or.inr (Or.inr (Or.inl h5))))
    · exact Or.inr (Or.inr (Or.inr (Or.inr (Or.inr (Or.inl h6)))))
    · exact Or.inr (Or.inr (Or.inr (Or.inr (Or.inr (Or.inr h7)))))
    · simp at hw

/-- Witness for C5 at a concrete message: `"feat"` is the first
alphabetic word of `"feat: add login"` and maps to `"✨"`, so the
processor prepends the glyph and a space. -/
theorem c5_gitmoji_post_processor_witness :
    addGitmojiToCommitMessage "feat: add login" = "✨" ++ " " ++ "feat: add login" :=
  c5_gitmoji_post_processor.1 "feat: add login" "✨" (by decide)

/-- C6: in list mode the model response is split on `";"` and each
segment whitespace-trimmed to form the candidate list (when emoji and
template post-processing are disabled), with the regenerate sentinel
appended as the last entry; the response
`"feat: a ; fix: b ;chore: c"` yields exactly
`["feat: a", "fix: b", "chore: c"]` followed by the sentinel as the
fourth and last entry. -/
theorem c6_list_mode_split :
    (∀ cfg : Config, ∀ branchOutput text : String,
        cfg.emoji = false → cfg.template = "" →
        listMenu cfg branchOutput text =
          ((goSplit ';' text).map goTrimSpace) ++ [regenerateMsg]) ∧
    listMenu cfgPlain "" "feat: a ; fix: b ;chore: c" =
      ["feat: a", "fix: b", "chore: c", regenerateMsg] ∧
    (listMenu cfgPlain "" "feat: a ; fix: b ;chore: c").getLast? = some regenerateMsg ∧
    (listMenu cfgPlain "" "feat: a ; fix: b ;chore: c").length = 4 := by
  refine ⟨?_, by decide, by decide, by decide⟩
  intro cfg branchOutput text h1 h2
  unfold listMenu buildListMsgsRun processListMsg postProcess
  simp [h1, h2]

/-- Witness for C6 at a concrete configuration and response. -/
theorem c6_list_mode_split_witness :
    listMenu cfgPlain "" "a ; b" = ((goSplit ';' "a ; b").map goTrimSpace) ++ [regenerateMsg] :=
  c6_list_mode_split.1 cfgPlain "" "a ; b" rfl rfl

/-- C7: template processing replaces the literal token
`{COMMIT_MESSAGE}` with the message text, and when the resulting string
contains the literal token `{GIT_BRANCH}`, the (trimmed) branch name
fetched from git is substituted for it; template
`"[{GIT_BRANCH}] {COMMIT_MESSAGE}"` with message `"fix: bug"` and branch
`"main"` yields `"[main] fix: bug"`. -/
theorem c7_template_substitution :
    (∀ template msg branchOutput : String,
        goContains (goReplaceAll template "{COMMIT_MESSAGE}" msg) "{GIT_BRANCH}" = true →
        processTemplate template msg branchOutput =
          goReplaceAll (goReplaceAll template "{COMMIT_MESSAGE}" msg) "{GIT_BRANCH}"
            (goTrimSpace branchOutput)) ∧
    (∀ template msg branchOutput : String,
        goContains (goReplaceAll template "{COMMIT_MESSAGE}" msg) "{GIT_BRANCH}" = false →
        processTemplate template msg branchOutput =
          goReplaceAll template "{COMMIT_MESSAGE}" msg) ∧
    processTemplate "[{GIT_BRANCH}] {COMMIT_MESSAGE}" "fix: bug" "main" = "[main] fix: bug" := by
  refine ⟨?_, ?_, by decide⟩
  · intro template msg branchOutput h
    simp [processTemplate, processTemplateRun, h]
  · intro template msg branchOutput h
    simp [processTemplate, processTemplateRun, h]

/-- Witness for C7 at the concrete template, message and branch of the
claim. -/
theorem c7_template_substitution_witness :
    processTemplate "[{GIT_BRANCH}] {COMMIT_MESSAGE}" "fix: bug" "main" =
      goReplaceAll (goReplaceAll "[{GIT_BRANCH}] {COMMIT_MESSAGE}" "{COMMIT_MESSAGE}" "fix: bug")
        "{GIT_BRANCH}" (goTrimSpace "main") :=
  c7_template_substitution.1 "[{GIT_BRANCH}] {COMMIT_MESSAGE}" "fix: bug" "main" (by decide)

/-- C10: template processing substitutes `{COMMIT_MESSAGE}` first and
only then replaces every occurrence of `{GIT_BRANCH}` in the combined
result; an occurrence of `{GIT_BRANCH}` contributed by the commit message
itself is replaced too, and the branch lookup happens even though the
configured template contains no branch placeholder. -/
theorem c10_branch_substitution_after_message :
    (∀ template msg branchOutput : String,
        goContains (goReplaceAll template "{COMMIT_MESSAGE}" msg) "{GIT_BRANCH}" = true →
        processTemplateRun template msg branchOutput =
          (goReplaceAll (goReplaceAll template "{COMMIT_MESSAGE}" msg) "{GIT_BRANCH}"
              (goTrimSpace branchOutput),
            [Event.branchLookup])) ∧
    (∀ template msg branchOutput : String,
        goContains (goReplaceAll template "{COMMIT_MESSAGE}" msg) "{GIT_BRANCH}" = false →
        processTemplateRun template msg branchOutput =
          (goReplaceAll template "{COMMIT_MESSAGE}" msg, [])) ∧
    goContains "{COMMIT_MESSAGE}" "{GIT_BRANCH}" = false ∧
    processTemplateRun "{COMMIT_MESSAGE}" "fix: use {GIT_BRANCH} names" "main" =
      ("fix: use main names", [Event.branchLookup]) := by
  refine ⟨?_, ?_, by decide, by decide⟩
  · intro template msg branchOutput h
    simp [processTemplateRun, h]
  · intro template msg branchOutput h
    simp [processTemplateRun, h]

/-- Witness for C10: the template `"{COMMIT_MESSAGE}"` has no branch
placeholder, yet the branch lookup happens because the message brings one
in, and it is substituted. -/
theorem c10_branch_substitution_after_message_witness :
    processTemplateRun "{COMMIT_MESSAGE}" "fix: use {GIT_BRANCH} names" "main" =
      (goReplaceAll (goReplaceAll "{COMMIT_MESSAGE}" "{COMMIT_MESSAGE}" "fix: use {GIT_BRANCH} names")
          "{GIT_BRANCH}" (goTrimSpace "main"),
        [Event.branchLookup]) :=
  c10_branch_substitution_after_message.1 "{COMMIT_MESSAGE}" "fix: use {GIT_BRANCH} names" "main"
    (by decide)

/-- C2: for a prompt with whitespace-delimited word count `w`, requested
completion count `n` and token ceiling `c`: the estimated fee equals
`(w/1000)*0.02 + 0.001*n`; with the fee-filter toggle off the filter
rejects iff `w > c`; with the toggle on and `w ≤ c` it proceeds iff the
(trimmed) interactive answer is case-insensitively `"y"`; and whenever
the filter rejects, `generateSingleCommit` terminates with exit status 1
having sent no inference request. -/
theorem c2_cost_filter :
    (∀ n : Nat, ∀ prompt : String,
        estimatedFee (numTokensOf prompt) n =
          (numTokensOf prompt : ℚ) / 1000 * 0.02 + 0.001 * (n : ℚ)) ∧
    (∀ prompt : String, ∀ n c : Nat, ∀ answer : String,
        filterAPI prompt n c false answer = false ↔ numTokensOf prompt > c) ∧
    (∀ prompt : String, ∀ n c : Nat, ∀ answer : String, numTokensOf prompt ≤ c →
        (filterAPI prompt n c true answer = true ↔
          goToLower (goTrimSpace answer) = "y")) ∧
    (∀ cfg : Config, ∀ env : SingleEnv, ∀ diffArg : String,
        filterAPI
            (getPromptForSingleCommit (getGitDiff env.rawDiff) cfg.commitType cfg.language)
            1 cfg.maxTokens cfg.filterFee env.feeAnswer = false →
        generateSingleCommitRun cfg env diffArg = (Outcome.exited 1, [Event.diffCollect])) := by
  refine ⟨?_, ?_, ?_, ?_⟩
  · intro n prompt
    unfold estimatedFee
    norm_num
  · intro prompt n c answer
    by_cases h : numTokensOf prompt > c
    · simp [filterAPI, h]
    · simp [filterAPI, h]
  · intro prompt n c answer hle
    have h : ¬ numTokensOf prompt > c := not_lt.mpr hle
    simp [filterAPI, h]
  · intro cfg env diffArg hf
    by_cases hd : getGitDiff env.rawDiff = ""
    · simp [generateSingleCommitRun, hd]
    · simp [generateSingleCommitRun, hd, hf]

/-- Witness for C2 at concrete inputs: the two-word prompt `"a b"` is
under the ceiling 2048 and the answer `" Y \n"` confirms, so the filter
proceeds. -/
theorem c2_cost_filter_witness :
    filterAPI "a b" 1 2048 true " Y \n" = true :=
  (c2_cost_filter.2.2.1 "a b" 1 2048 " Y \n" (by decide)).mpr (by decide)

/-- C3 counterexample: in a concrete single-mode run with a nonempty
staged diff, the diff-collection subprocess runs twice — once in `main`
and once again at the start of `generateSingleCommit` — so the diff is
not collected exactly once across the run. -/
theorem c3_counterexample_diff_collected_twice :
    ((mainRunSingle ⟨"english", "", false, "", 2048, true, false⟩
        ⟨"+x", "feat: y", "", "", ""⟩).2.count Event.diffCollect) = 2 := by
  decide

/-- C3 amended: in a single-mode run with a nonempty diff the diff is
collected exactly twice (`generateSingleCommit` re-collects it,
discarding the value `main` collected), and the single inference call
uses the re-collected diff; in a list-mode run the diff is collected
exactly once, and every inference call of the run — including list-mode
regeneration — uses a prompt built from that same collected diff
unchanged. -/
theorem c3_amended_diff_collection :
    (∀ cfg : Config, ∀ env : SingleEnv, getGitDiff env.rawDiff ≠ "" →
        ((mainRunSingle cfg env).2.count Event.diffCollect) = 2) ∧
    (∀ cfg : Config, ∀ env : SingleEnv, ∀ p : String,
        Event.inference p ∈ (mainRunSingle cfg env).2 →
        p = getPromptForSingleCommit (getGitDiff env.rawDiff) cfg.commitType cfg.language) ∧
    (∀ cfg : Config, ∀ rawDiff branchOutput : String, ∀ rounds : List Round,
        ((mainRunList cfg rawDiff branchOutput rounds).2.count Event.diffCollect) = 1) ∧
    (∀ cfg : Config, ∀ diff branchOutput : String, ∀ rounds : List Round, ∀ p : String,
        Event.inference p ∈ (generateListCommitsRun cfg diff branchOutput rounds).2 →
        p = getPromptForListCommits diff cfg.commitType cfg.language 5) := by
  refine ⟨?_, ?_, ?_, ?_⟩
  · intro cfg env hd
    simp only [mainRunSingle, if_neg hd]
    simp [List.count_cons, generateSingleCommitRun_count cfg env (getGitDiff env.rawDiff)]
  · intro cfg env p hp
    simp only [mainRunSingle] at hp
    split at hp
    · simp at hp
    · rcases List.mem_cons.mp hp with h | h
      · simp at h
      · rcases generateSingleCommitRun_events cfg env (getGitDiff env.rawDiff)
          (Event.inference p) h with h2 | h2 | h2 | ⟨m, h2⟩ <;> simp at h2
        exact h2
  · intro cfg rawDiff branchOutput rounds
    simp only [mainRunList]
    split
    · decide
    · have hz :
          ((generateListCommitsRun cfg (getGitDiff rawDiff) branchOutput rounds).2.count
            Event.diffCollect) = 0 :=
        List.count_eq_zero.mpr
          (generateListCommitsRun_no_diffCollect cfg (getGitDiff rawDiff) branchOutput rounds)
      simp [List.count_cons, hz]
  · intro cfg diff branchOutput rounds p hp
    rcases generateListCommitsRun_events cfg diff branchOutput rounds
      (Event.inference p) hp with h2 | h2 | ⟨m, h2⟩ <;> simp at h2
    exact h2

/-- Witness for C3 amended at a concrete single-mode environment. -/
theorem c3_amended_diff_collection_witness :
    ((mainRunSingle ⟨"english", "", true, "", 2048, false, false⟩
        ⟨"+y\n-z", "fix: w", "", "y", "main"⟩).2.count Event.diffCollect) = 2 :=
  c3_amended_diff_collection.1 ⟨"english", "", true, "", 2048, false, false⟩
    ⟨"+y\n-z", "fix: w", "", "y", "main"⟩ (by decide)

theorem listRound_commit_cases (cfg : Config) (diff b : String) (r : Round) (m : String) :
    Event.commit m ∈ (listRound cfg diff b r).2 →
      (listRound cfg diff b r).1 = RoundResult.done Outcome.completed ∧
      m = listSelection cfg b r ∧ listSelection cfg b r ≠ regenerateMsg := by
  simp only [listRound]
  repeat' split
  · intro h
    simp at h
  · intro h
    rcases List.mem_cons.mp h with h2 | h2
    · simp at h2
    · have := buildListMsgsRun_events cfg b r.response _ h2
      simp at this
  · intro h
    rcases List.mem_cons.mp h with h2 | h2
    · simp at h2
    · have := buildListMsgsRun_events cfg b r.response _ h2
      simp at this
  · intro h
    rcases List.mem_append.mp h with h2 | h2
    · rcases List.mem_cons.mp h2 with h3 | h3
      · simp at h3
      · have := buildListMsgsRun_events cfg b r.response _ h3
        simp at this
    · simp at h2
      subst h2
      refine ⟨rfl, rfl, ?_⟩
      assumption

/-- C4: in list mode, whenever the menu selection resolves to the
regenerate sentinel, the program re-invokes list generation with the
identical diff string (no diff re-collection happens in a list pass) and
performs no commit on that step; a commit event occurs only for a
selected non-sentinel candidate. -/
theorem c4_regenerate_sentinel_step :
    (∀ cfg : Config, ∀ diff branchOutput : String, ∀ r : Round, ∀ rest : List Round,
        (listRound cfg diff branchOutput r).1 = RoundResult.regen →
        generateListCommitsRun cfg diff branchOutput (r :: rest) =
          ((generateListCommitsRun cfg diff branchOutput rest).1,
            (listRound cfg diff branchOutput r).2 ++
              (generateListCommitsRun cfg diff branchOutput rest).2)) ∧
    (∀ cfg : Config, ∀ diff branchOutput : String, ∀ r : Round,
        (listRound cfg diff branchOutput r).1 = RoundResult.regen →
        ∀ m, Event.commit m ∉ (listRound cfg diff branchOutput r).2) ∧
    (∀ cfg : Config, ∀ diff branchOutput : String, ∀ r : Round,
        Event.diffCollect ∉ (listRound cfg diff branchOutput r).2) ∧
    (∀ cfg : Config, ∀ diff branchOutput : String, ∀ r : Round, ∀ m : String,
        Event.commit m ∈ (listRound cfg diff branchOutput r).2 →
        m = listSelection cfg branchOutput r ∧
          listSelection cfg branchOutput r ≠ regenerateMsg) := by
  refine ⟨?_, ?_, ?_, ?_⟩
  · intro cfg diff branchOutput r rest hregen
    rcases hlr : listRound cfg diff branchOutput r with ⟨res, evs⟩
    rw [hlr] at hregen
    simp only at hregen
    subst hregen
    simp [generateListCommitsRun, hlr]
  · intro cfg diff branchOutput r hregen m hmem
    have h := (listRound_commit_cases cfg diff branchOutput r m hmem).1
    rw [hregen] at h
    simp at h
  · intro cfg diff branchOutput r hmem
    rcases listRound_events_cases cfg diff branchOutput r Event.diffCollect hmem with
      h | h | ⟨m, h⟩ <;> simp at h
  · intro cfg diff branchOutput r m hmem
    exact (listRound_commit_cases cfg diff branchOutput r m hmem).2

/-- Witness for C4 at a concrete round: with candidates `["a", "b"]` and
choice 3 the selection is the appended sentinel, so the run on
`[round, roundDone]` is the first pass's events followed by the run on
`[roundDone]`, with the same diff. -/
theorem c4_regenerate_sentinel_step_witness :
    generateListCommitsRun cfgPlain "+x" "" [⟨"a;b", "", 3⟩, ⟨"a;b", "", 1⟩] =
      ((generateListCommitsRun cfgPlain "+x" "" [⟨"a;b", "", 1⟩]).1,
        (listRound cfgPlain "+x" "" ⟨"a;b", "", 3⟩).2 ++
          (generateListCommitsRun cfgPlain "+x" "" [⟨"a;b", "", 1⟩]).2) :=
  c4_regenerate_sentinel_step.1 cfgPlain "+x" "" ⟨"a;b", "", 3⟩ [⟨"a;b", "", 1⟩] (by decide)

set_option maxRecDepth 4000 in
/-- C9: post-selection dispatch is decided by string equality with the
sentinel text `"♻️ Regenerate Commit Messages"`: whenever the cost filter
proceeds and the in-range selection equals that string, the pass
regenerates — also when a model-produced candidate equal to the sentinel
sits at a non-last menu position, as the concrete response
`"♻️ Regenerate Commit Messages ; feat: a"` with choice 1 shows: the run
regenerates (a second inference, no commit) and, with stdin then
exhausted, exits with status 1. -/
theorem c9_sentinel_string_equality_dispatch :
    (∀ cfg : Config, ∀ diff branchOutput : String, ∀ r : Round,
        filterAPI (getPromptForListCommits diff cfg.commitType cfg.language 5) 5
            cfg.maxTokens cfg.filterFee r.feeAnswer = true →
        1 ≤ r.choice → r.choice ≤ ((listMenu cfg branchOutput r.response).length : Int) →
        listSelection cfg branchOutput r = regenerateMsg →
        (listRound cfg diff branchOutput r).1 = RoundResult.regen) ∧
    listMenu cfgPlain "" "♻️ Regenerate Commit Messages ; feat: a" =
      [regenerateMsg, "feat: a", regenerateMsg] ∧
    listSelection cfgPlain "" ⟨"♻️ Regenerate Commit Messages ; feat: a", "", 1⟩ =
      regenerateMsg ∧
    generateListCommitsRun cfgPlain "+x" ""
        [⟨"♻️ Regenerate Commit Messages ; feat: a", "", 1⟩] =
      (Outcome.exited 1,
        [Event.inference (getPromptForListCommits "+x" "" "english" 5),
          Event.inference (getPromptForListCommits "+x" "" "english" 5)]) := by
  refine ⟨?_, by decide, by decide, by decide⟩
  intro cfg diff branchOutput r hf h1 h2 hsel
  have hc1 : ¬ r.choice < 1 := not_lt.mpr h1
  have hc2 : ¬ r.choice > ((listMenu cfg branchOutput r.response).length : Int) :=
    not_lt.mpr h2
  simp [listRound, hf, hc1, hc2, hsel]

/-- Witness for C9: the concrete regenerating pass of the claim, obtained
from the general dispatch rule. -/
theorem c9_sentinel_string_equality_dispatch_witness :
    (listRound cfgPlain "+x" "" ⟨"♻️ Regenerate Commit Messages ; feat: a", "", 1⟩).1 =
      RoundResult.regen :=
  c9_sentinel_string_equality_dispatch.1 cfgPlain "+x" ""
    ⟨"♻️ Regenerate Commit Messages ; feat: a", "", 1⟩
    (by decide) (by decide) (by decide) (by decide)
